import Mathlib

/-!
Verification development for the kademlia_raft node implementation.

The Python sources are shallowly embedded: each Python class becomes a Lean
structure, each method a pure function with explicit state passing, monotonic
clock readings become explicit `ℚ`-valued arguments, and operations that can
raise become `Option`-valued (or return the partially mutated state together
with a success flag, matching Python's in-place mutation semantics on an
exception).  `OrderedDict` is embedded as an insertion-ordered association
list: assignment replaces in place or appends, `popitem(last=False)` pops the
front, `move_to_end` reinserts at the back.
-/

/-- `Node.distance_to` (node.py): XOR of the two 160-bit ids, read as
natural numbers (`long_id`). -/
def distance_to (a b : Nat) : Nat := a ^^^ b

/-! ### OrderedDict embedding (used by storage.py)

Entries of the ARC lists are `(key, (timestamp, value))`; the value slot is
`Option V` because `ARCStorage._move_to_t2` stores Python `None` there. -/

/-- Membership test `key in od` on an ordered dict. -/
def odMem (k : Nat) (l : List (Nat × ℚ × α)) : Bool :=
  l.any (fun e => e.1 == k)

/-- Dict assignment `od[key] = tv`: replace in place if the key is present
(a dict key occupies a single slot), otherwise append at the MRU end. -/
def odSet (k : Nat) (tv : ℚ × α) : List (Nat × ℚ × α) → List (Nat × ℚ × α)
  | [] => [(k, tv)]
  | e :: es => if e.1 = k then (k, tv) :: es else e :: odSet k tv es

/-- Dict deletion `od.pop(key)` / `del od[key]`: drop the key's slot.  A dict
holds each key at most once, so filtering every occurrence coincides with
deleting the single entry. -/
def odErase (k : Nat) (l : List (Nat × ℚ × α)) : List (Nat × ℚ × α) :=
  l.filter (fun e => decide (e.1 ≠ k))

/-- Lookup returning the whole entry, `od[key]` with its key. -/
def odFind? (k : Nat) (l : List (Nat × ℚ × α)) : Option (Nat × ℚ × α) :=
  l.find? (fun e => e.1 == k)

/-- `od.move_to_end(key)`: reinsert the key's entry at the MRU end. -/
def odMoveToEnd (k : Nat) (l : List (Nat × ℚ × α)) : List (Nat × ℚ × α) :=
  match odFind? k l with
  | some e => odErase k l ++ [e]
  | none => l

/-! ### ForgetfulStorage (storage.py lines 39-82) -/

/-- `ForgetfulStorage`: insertion-ordered map of `key ↦ (birthday, value)`
with a TTL (default 604800 s). -/
structure ForgetfulStorage (V : Type) where
  data : List (Nat × ℚ × V)
  ttl : ℚ
deriving DecidableEq

/-- A fresh `ForgetfulStorage()` with the default one-week TTL. -/
def ForgetfulStorage.empty (V : Type) : ForgetfulStorage V := ⟨[], 604800⟩

/-- `ForgetfulStorage.__setitem__`: delete the existing entry for the key (a
dict key occupies one slot, so the filter drops exactly it), then append
`(now, value)` at the MRU end. -/
def ForgetfulStorage.setItem (fs : ForgetfulStorage V) (now : ℚ) (k : Nat) (v : V) :
    ForgetfulStorage V :=
  { fs with data := fs.data.filter (fun e => decide (e.1 ≠ k)) ++ [(k, now, v)] }

/-- `ForgetfulStorage.get(key, default=None)`: the stored value, or the
default (`none`) when the key is absent. -/
def ForgetfulStorage.get (fs : ForgetfulStorage V) (k : Nat) : Option V :=
  (fs.data.find? (fun e => e.1 == k)).map (fun e => e.2.2)

/-- `ForgetfulStorage.iter_older_than(seconds_old)`: `takewhile` over the
insertion order, keeping entries with `min_birthday >= birthday`, projected to
`(key, value)`. -/
def ForgetfulStorage.iter_older_than (fs : ForgetfulStorage V) (now Δ : ℚ) :
    List (Nat × V) :=
  (fs.data.takeWhile (fun e => decide (e.2.1 ≤ now - Δ))).map (fun e => (e.1, e.2.2))

/-- `ForgetfulStorage.cull`: pop one entry from the LRU end for every match of
`iter_older_than(ttl)` (the matches are computed first, then popped). -/
def ForgetfulStorage.cull (fs : ForgetfulStorage V) (now : ℚ) : ForgetfulStorage V :=
  { fs with data := fs.data.drop (fs.iter_older_than now fs.ttl).length }

/-- Reachable `ForgetfulStorage` states, paired with the current reading of
the monotonic clock: built from empty by `set` and `cull` operations whose
clock readings never decrease (`time.monotonic()` is nondecreasing). -/
inductive FsReach (V : Type) : ForgetfulStorage V → ℚ → Prop
  | empty (ttl t0 : ℚ) : FsReach V ⟨[], ttl⟩ t0
  | set {fs t} (t' : ℚ) (k : Nat) (v : V) : FsReach V fs t → t ≤ t' →
      FsReach V (fs.setItem t' k v) t'
  | cull {fs t} (t' : ℚ) : FsReach V fs t → t ≤ t' → FsReach V (fs.cull t') t'
  | tick {fs t} (t' : ℚ) : FsReach V fs t → t ≤ t' → FsReach V fs t'

/-! ### ARCStorage (storage.py lines 85-177) -/

/-- `ARCStorage`: the four insertion-ordered lists and the adaptive target
`p`.  Values are `Option V`: `_move_to_t2` stores Python `None`. -/
structure ARCStorage (V : Type) where
  capacity : ℕ
  p : ℕ
  T1 : List (Nat × ℚ × Option V)
  T2 : List (Nat × ℚ × Option V)
  B1 : List (Nat × ℚ × Option V)
  B2 : List (Nat × ℚ × Option V)
deriving DecidableEq

/-- `ARCStorage(capacity)`: all four lists empty, `p = 0`. -/
def ARCStorage.empty (V : Type) (cap : ℕ) : ARCStorage V := ⟨cap, 0, [], [], [], []⟩

/-- `|T1| + |T2| + |B1| + |B2|`. -/
def ARCStorage.total (s : ARCStorage V) : ℕ :=
  s.T1.length + s.T2.length + s.B1.length + s.B2.length

/-- `ARCStorage._replace`: evict the LRU of T1 to B1 when
`len(T1) >= 1 and (len(T1) > p or (key in B2 and len(T1) == p))`, else the
LRU of T2 to B2.  `popitem` on an empty T2 raises `KeyError` before mutating
anything, hence the `none` result. -/
def ARCStorage.replaceOp (s : ARCStorage V) (k : Nat) : Option (ARCStorage V) :=
  if 1 ≤ s.T1.length ∧ (s.p < s.T1.length ∨ (odMem k s.B2 = true ∧ s.T1.length = s.p)) then
    match s.T1 with
    | [] => none
    | e :: rest => some { s with T1 := rest, B1 := odSet e.1 e.2 s.B1 }
  else
    match s.T2 with
    | [] => none
    | e :: rest => some { s with T2 := rest, B2 := odSet e.1 e.2 s.B2 }

/-- `ARCStorage._move_to_t2`: when `len(T2) >= capacity - p` pop the LRU of T2
(discarding it; `KeyError` on empty T2 gives `none`), then store
`(now, None)` under the key — note the value slot is Python `None`, not the
value being set. -/
def ARCStorage.move_to_t2 (s : ARCStorage V) (now : ℚ) (k : Nat) : Option (ARCStorage V) :=
  if s.capacity - s.p ≤ s.T2.length then
    match s.T2 with
    | [] => none
    | _ :: rest => some { s with T2 := odSet k (now, none) rest }
  else some { s with T2 := odSet k (now, none) s.T2 }

/-- `ARCStorage.__setitem__`.  The `Bool` is `false` when a `KeyError` escapes
(from `_replace` or `_move_to_t2` popping an empty list); the returned state
then reflects the mutations already performed, as in Python. -/
def ARCStorage.setItem (s : ARCStorage V) (now : ℚ) (k : Nat) (v : V) :
    ARCStorage V × Bool :=
  if odMem k s.T1 then
    ({ s with T1 := odErase k s.T1, T2 := odSet k (now, some v) s.T2 }, true)
  else if odMem k s.T2 then
    ({ s with T2 := odSet k (now, some v) (odMoveToEnd k s.T2) }, true)
  else
    match (if s.capacity ≤ s.T1.length + s.T2.length then s.replaceOp k else some s) with
    | none => (s, false)
    | some s1 =>
      if odMem k s1.B1 then
        match ARCStorage.move_to_t2
            { s1 with p := min s1.capacity (s1.p + max (s1.B2.length / s1.B1.length) 1) }
            now k with
        | none =>
          ({ s1 with p := min s1.capacity (s1.p + max (s1.B2.length / s1.B1.length) 1) },
            false)
        | some s3 => ({ s3 with B1 := odErase k s3.B1 }, true)
      else if odMem k s1.B2 then
        match ARCStorage.move_to_t2
            { s1 with p := s1.p - max (s1.B1.length / s1.B2.length) 1 } now k with
        | none => ({ s1 with p := s1.p - max (s1.B1.length / s1.B2.length) 1 }, false)
        | some s3 => ({ s3 with B2 := odErase k s3.B2 }, true)
      else
        match
          (if s1.T1.length + s1.B1.length = s1.capacity then
            if s1.T1.length < s1.capacity then
              match s1.B1 with
              | [] => (s1, false)
              | _ :: rest =>
                match ARCStorage.replaceOp { s1 with B1 := rest } k with
                | none => ({ s1 with B1 := rest }, false)
                | some s' => (s', true)
            else (s1, true)
          else if s1.T1.length + s1.B1.length < s1.capacity then
            if s1.capacity ≤ s1.total then
              if s1.total = 2 * s1.capacity then
                match s1.B2 with
                | [] => (s1, false)
                | _ :: rest => ({ s1 with B2 := rest }, true)
              else (s1, true)
            else (s1, true)
          else (s1, true)) with
        | (s4, false) => (s4, false)
        | (s4, true) => ({ s4 with T1 := odSet k (now, some v) s4.T1 }, true)

/-- `ARCStorage.__getitem__` wrapped by `ARCStorage.get(key, default=None)`:
a T1 hit pops the entry and reinserts it (same `(timestamp, value)`) into T2;
a T2 hit moves it to the MRU end; a miss returns the default `none`.  Returns
the value together with the mutated state. -/
def ARCStorage.getValue (s : ARCStorage V) (k : Nat) : Option V × ARCStorage V :=
  match odFind? k s.T1 with
  | some e => (e.2.2, { s with T1 := odErase k s.T1, T2 := odSet k e.2 s.T2 })
  | none =>
    match odFind? k s.T2 with
    | some e => (e.2.2, { s with T2 := odMoveToEnd k s.T2 })
    | none => (none, s)

/-- `ARCStorage.iter_older_than(seconds_old)`: all `(key, value)` of T1 then
T2 entries with `timestamp <= now - seconds_old`. -/
def ARCStorage.iter_older_than (s : ARCStorage V) (now Δ : ℚ) :
    List (Nat × Option V) :=
  (s.T1.filter (fun e => decide (e.2.1 ≤ now - Δ))).map (fun e => (e.1, e.2.2)) ++
    (s.T2.filter (fun e => decide (e.2.1 ≤ now - Δ))).map (fun e => (e.1, e.2.2))

/-- A client-visible ARC operation: a `set` or a `get`. -/
inductive ArcOp (V : Type)
  | setOp (k : Nat) (v : V)
  | getOp (k : Nat)

/-- Apply one operation (at clock reading `now`) to the storage state. -/
def ARCStorage.applyOp (s : ARCStorage V) (now : ℚ) : ArcOp V → ARCStorage V
  | .setOp k v => (s.setItem now k v).1
  | .getOp k => (s.getValue k).2

/-- Run a finite sequence of timestamped operations. -/
def ARCStorage.run (s : ARCStorage V) : List (ℚ × ArcOp V) → ARCStorage V
  | [] => s
  | (now, op) :: rest => (s.applyOp now op).run rest

/-- The ARC size invariants of the specification. -/
def ARCStorage.sizeInv (s : ARCStorage V) : Prop :=
  s.T1.length + s.T2.length ≤ s.capacity ∧
    s.T1.length + s.B1.length ≤ s.capacity ∧
    s.total ≤ 2 * s.capacity

instance (s : ARCStorage V) : Decidable s.sizeInv := by
  unfold ARCStorage.sizeInv; infer_instance

/-! ### NodeHeap (node.py lines 36-104)

`heapq` keeps a binary min-heap inside a Python list ordered by the
`(distance, node)` pairs; no `NodeHeap` operation observes the internal
layout (iteration takes the `nsmallest`), so the heap is embedded by its
content kept in ascending order, with `heappush` as ordered insertion.
Contacts are represented by their `long_id`. -/

/-- `heapq.heappush`: insert keeping the ascending order of
`(distance, id)` pairs. -/
def heappush (l : List (Nat × Nat)) (e : Nat × Nat) : List (Nat × Nat) :=
  match l with
  | [] => [e]
  | x :: xs =>
    if e.1 < x.1 ∨ (e.1 = x.1 ∧ e.2 ≤ x.2) then e :: x :: xs else x :: heappush xs e

/-- `NodeHeap(node, maxsize)` state: the target node, the heap content, the
size bound and the contacted set. -/
structure NodeHeap where
  node : Nat
  heap : List (Nat × Nat)
  maxsize : ℕ
  contacted : List Nat
deriving DecidableEq

/-- A fresh `NodeHeap(node, maxsize)`. -/
def NodeHeap.new (node : Nat) (maxsize : ℕ) : NodeHeap := ⟨node, [], maxsize, []⟩

/-- `NodeHeap.__contains__`: scan the whole heap comparing node ids. -/
def NodeHeap.containsId (h : NodeHeap) (nid : Nat) : Bool :=
  h.heap.any (fun e => e.2 == nid)

/-- `NodeHeap.push` for a single node: skip it when an entry with the same id
is already present, else `heappush` it keyed by the distance to the target. -/
def NodeHeap.push1 (h : NodeHeap) (n : Nat) : NodeHeap :=
  if h.containsId n then h
  else { h with heap := heappush h.heap (distance_to h.node n, n) }

/-- `NodeHeap.push` on a list of nodes. -/
def NodeHeap.push (h : NodeHeap) (ns : List Nat) : NodeHeap :=
  ns.foldl NodeHeap.push1 h

/-- `NodeHeap.remove(peers)`: when `peers` is non-empty, rebuild the heap by
pushing every entry whose id is not in `peers` onto a fresh heap. -/
def NodeHeap.remove (h : NodeHeap) (peers : List Nat) : NodeHeap :=
  if peers.isEmpty then h
  else
    { h with
      heap := h.heap.foldl (fun acc e => if e.2 ∈ peers then acc else heappush acc e) [] }

/-- One `NodeHeap` mutation from its public surface. -/
inductive HeapOp
  | pushOp (ns : List Nat)
  | removeOp (ps : List Nat)

/-- Run a sequence of push/remove operations. -/
def NodeHeap.runOps (h : NodeHeap) : List HeapOp → NodeHeap
  | [] => h
  | .pushOp ns :: rest => (h.push ns).runOps rest
  | .removeOp ps :: rest => (h.remove ps).runOps rest

/-! ### DynamicQuorum (network.py lines 20-73) -/

/-- `DynamicQuorum` state.  `failure_counts` is a `ℕ` (the code floors it at
0 with `max(0, …)`, which is `ℕ` subtraction); quorum sizes are `ℤ`; times
and latencies are `ℚ`. -/
structure DynamicQuorum where
  min_r : ℤ
  min_w : ℤ
  min_n : ℤ
  current_r : ℤ
  current_w : ℤ
  current_n : ℤ
  response_times : List ℚ
  failure_counts : ℕ
  last_adjustment : ℚ
deriving DecidableEq

/-- `DynamicQuorum()` as constructed by `Server.__init__` (all defaults:
`min_r=1, min_w=1, min_n=3`), at clock reading `t0`. -/
def dynInit (t0 : ℚ) : DynamicQuorum :=
  { min_r := 1, min_w := 1, min_n := 3, current_r := 1, current_w := 1, current_n := 3,
    response_times := [], failure_counts := 0, last_adjustment := t0 }

/-- The slide of the latency window (network.py lines 40-42): append, then
pop the front when the window holds more than 100 entries. -/
def dqWindow (rts : List ℚ) (latency : ℚ) : List ℚ :=
  if 100 < (rts ++ [latency]).length then (rts ++ [latency]).tail else rts ++ [latency]

/-- The failure-counter update (network.py lines 44-47): increment on
failure, else `max(0, …-1)` — which is `ℕ` subtraction. -/
def dqFail (fc : ℕ) (success : Bool) : ℕ :=
  if success = false then fc + 1 else fc - 1

/-- The branch condition (network.py line 52):
`avg_latency > 1.0 or self.failure_counts > 3`, on the already-updated window
and counter. -/
def dqHigh (rt : List ℚ) (fc : ℕ) : Bool :=
  decide (1 < rt.sum / (rt.length : ℚ) ∨ 3 < fc)

/-- The `R`/`W` update (network.py lines 51-62): the high-load branch raises
`R` and lowers `W`, the healthy branch does the opposite; then
`W = N - R + 1` restores `R + W > N` when violated. -/
def quorum_update (mr mw n r w : ℤ) (high : Bool) : ℤ × ℤ :=
  let rw : ℤ × ℤ :=
    if high then (min (n - 1) (r + 1), max mw (w - 1))
    else (max mr (r - 1), min (n - 1) (w + 1))
  (rw.1, if rw.1 + rw.2 ≤ n then n - rw.1 + 1 else rw.2)

/-- `DynamicQuorum.adjust_quorum(latency, success)` at clock reading `now`:
gated to once per 5 seconds; otherwise slides the latency window, counts
failures, and moves `R`/`W` per `quorum_update`. -/
def DynamicQuorum.adjust_quorum (q : DynamicQuorum) (now latency : ℚ) (success : Bool) :
    DynamicQuorum :=
  if now - q.last_adjustment < 5 then q
  else
    { q with
      response_times := dqWindow q.response_times latency,
      failure_counts := dqFail q.failure_counts success,
      current_r :=
        (quorum_update q.min_r q.min_w q.current_n q.current_r q.current_w
          (dqHigh (dqWindow q.response_times latency) (dqFail q.failure_counts success))).1,
      current_w :=
        (quorum_update q.min_r q.min_w q.current_n q.current_r q.current_w
          (dqHigh (dqWindow q.response_times latency) (dqFail q.failure_counts success))).2,
      last_adjustment := now }

/-- Reachable `DynamicQuorum` states: a default-constructed controller
followed by any sequence of `adjust_quorum` calls with a nondecreasing
monotonic clock. -/
inductive QReachable : DynamicQuorum → Prop
  | init (t0 : ℚ) : QReachable (dynInit t0)
  | step {q} (now latency : ℚ) (success : Bool) : QReachable q →
      q.last_adjustment ≤ now → QReachable (q.adjust_quorum now latency success)

/-! ### Python values and `check_dht_value_type` (network.py lines 320-332) -/

/-- The Python runtime type of a value, as `type(value)` sees it. -/
inductive PyType
  | tInt
  | tFloat
  | tBool
  | tStr
  | tBytes
  | tList
  | tDict
  | tTuple
  | tNone
deriving DecidableEq

/-- A Python value of one of the runtime types above (floats are embedded as
rationals; the embedding only inspects type tags). -/
inductive PyVal
  | pInt (n : ℤ)
  | pFloat (q : ℚ)
  | pBool (b : Bool)
  | pStr (s : String)
  | pBytes (bs : List ℕ)
  | pList (n : ℕ)
  | pDict (n : ℕ)
  | pTuple (n : ℕ)
  | pNone
deriving DecidableEq

/-- `type(value)`. -/
def PyVal.typeOf : PyVal → PyType
  | .pInt _ => .tInt
  | .pFloat _ => .tFloat
  | .pBool _ => .tBool
  | .pStr _ => .tStr
  | .pBytes _ => .tBytes
  | .pList _ => .tList
  | .pDict _ => .tDict
  | .pTuple _ => .tTuple
  | .pNone => .tNone

/-- `check_dht_value_type(value)`: `type(value) in [int, float, bool, str,
bytes]` — an exact type test, not `isinstance`. -/
def check_dht_value_type (value : PyVal) : Bool :=
  decide
    (value.typeOf ∈ [PyType.tInt, PyType.tFloat, PyType.tBool, PyType.tStr, PyType.tBytes])

/-! ### Server lookups (network.py lines 196-266)

`Server.get` and `Server.set_digest` interleave local code with two external
collaborators absent from src/: the spider (crawling.py is missing) and the
RPC layer (rpcudp).  Their contributions are supplied as an oracle
environment: the routing table's `find_neighbors` answer, the node-spider's
result list, the value-spider's result, the RPCs the spider itself issues,
and — per spec §4.3, which fixes the rpcudp result shape — one
`(success-flag, payload)` pair per `call_store` target.  The server's default
local storage (`ForgetfulStorage`, network.py line 98) is used.  The advisory
`quorum.adjust_quorum` side effect of `get`/`set` is not modelled (it touches
no state these claims mention). -/

/-- Oracle for one lookup: routing-table answer, spider results and
per-target STORE replies. -/
structure LookupEnv (V : Type) where
  neighbors : List Nat
  spiderNodes : List Nat
  storeReply : Nat → Bool × Option Bool
  valueResult : Option V
  spiderRpcs : List Nat

/-- Python truth-value testing of an rpcudp result: the result of an RPC call
is the 2-tuple `(flag, payload)` (spec §4.3), and `bool` of a tuple is `True`
exactly when the tuple is non-empty — so a 2-tuple tests true regardless of
the flag inside it. -/
def pyTruthyPair (_ : Bool × Option Bool) : Bool := true

/-- Python `any(results)` over a list of rpcudp result tuples. -/
def pyAny (l : List (Bool × Option Bool)) : Bool := l.any pyTruthyPair

/-- `Server.set_digest(dkey, value)`: return `False` straight away when
`find_neighbors` is empty; otherwise crawl (`max` over the spider's node list
raises `ValueError` when it is empty — the `none` result), store locally when
the home node is strictly closer to `dkey` than the farthest spider node, and
return `any()` of the gathered `call_store` results.  The last component
lists the contacted node ids (spider traffic, then one STORE per node). -/
def set_digest (home : Nat) (now : ℚ) (st : ForgetfulStorage V) (env : LookupEnv V)
    (dkey : Nat) (v : V) : Option (Bool × ForgetfulStorage V × List Nat) :=
  if env.neighbors.isEmpty then some (false, st, [])
  else
    match env.spiderNodes with
    | [] => none
    | n0 :: rest =>
      let nodes := n0 :: rest
      let biggest := (nodes.map (fun n => distance_to n dkey)).foldr max 0
      let st' := if distance_to home dkey < biggest then st.setItem now dkey v else st
      some (pyAny (nodes.map env.storeReply), st', env.spiderRpcs ++ nodes)

/-- `Server.get(key)`: return the local value when the storage has it;
return `None` when `find_neighbors` is empty; otherwise run the value spider.
The second component lists the RPC targets contacted. -/
def server_get (st : ForgetfulStorage V) (env : LookupEnv V) (dkey : Nat) :
    Option V × List Nat :=
  if (st.get dkey).isSome then (st.get dkey, [])
  else if env.neighbors.isEmpty then (none, [])
  else (env.valueResult, env.spiderRpcs)

/-- Observable outcome of `Server.set`: whether a `TypeError` was raised,
whether a `ValueError` escaped from `set_digest`, the returned boolean, the
local storage after the call, and the RPC targets contacted. -/
structure SetOutcome (V : Type) where
  raised : Bool
  crashed : Bool
  result : Option Bool
  storage : ForgetfulStorage V
  rpcs : List Nat

/-- `Server.set(key, value)`: raise `TypeError` before anything else when
`check_dht_value_type` fails, else run `set_digest` on `digest(key)`.  The
digest function (utils.py is absent from src/) is passed in as `pydigest`;
spec §3 only fixes it as SHA-1 hashing of the application key. -/
def server_set (pydigest : String → Nat) (home : Nat) (now : ℚ)
    (st : ForgetfulStorage PyVal) (env : LookupEnv PyVal) (key : String) (v : PyVal) :
    SetOutcome PyVal :=
  if check_dht_value_type v = false then
    { raised := true, crashed := false, result := none, storage := st, rpcs := [] }
  else
    match set_digest home now st env (pydigest key) v with
    | none =>
      { raised := false, crashed := true, result := none, storage := st,
        rpcs := env.spiderRpcs }
    | some (b, st', rpcs) =>
      { raised := false, crashed := false, result := some b, storage := st', rpcs := rpcs }

/-! ### Protocol handlers (protocol.py lines 14-132)

The handlers live in src/, but the `RoutingTable` they consult does not:
routing.py is truncated to a `KBucket` stub, so the table is modelled from
the spec. -/

/-- Modelled from the spec: `RoutingTable.is_new_node(c)` — routing.py lacks
the `RoutingTable` class; per spec §4.1 it is "true iff `c` is not currently
in any bucket's `live` list".  The table is modelled as the flat list of live
contact ids (bucket boundaries are not observable through these claims). -/
def is_new_node (router : List Nat) (c : Nat) : Bool := (router.contains c) = false

/-- Modelled from the spec: `RoutingTable.add_contact(c)` — routing.py lacks
the class; per spec §4.1 a contact with room is appended at the MRU end.
Bucket splitting and the replacement queue of a full bucket are not
modelled. -/
def add_contact (router : List Nat) (c : Nat) : List Nat := router ++ [c]

/-- Modelled from the spec: `RoutingTable.find_neighbors(target, k,
exclude)` — routing.py lacks the class; per spec §4.1 it returns up to `k`
contacts with smallest XOR distance to the target, minus the excluded
contact.  Insertion sort by distance (ties cannot arise between distinct
ids). -/
def neighbors_insert (target : Nat) (c : Nat) : List Nat → List Nat
  | [] => [c]
  | x :: xs =>
    if distance_to c target ≤ distance_to x target then c :: x :: xs
    else x :: neighbors_insert target c xs

/-- Modelled from the spec: see `neighbors_insert`. -/
def find_neighbors (router : List Nat) (target : Nat) (k : ℕ) (exclude : Option Nat) :
    List Nat :=
  ((router.filter (fun c => decide (some c ≠ exclude))).foldr (neighbors_insert target)
    []).take k

/-- `KademliaProtocol` state: home id, `ksize`, routing table (spec-modelled
flat list of live contact ids) and the node-local storage. -/
structure Proto (V : Type) where
  source_id : Nat
  ksize : ℕ
  router : List Nat
  storage : ForgetfulStorage V

/-- `KademliaProtocol.welcome_if_new(node)`: no-op for a known node;
otherwise, for each stored `(key, value)`, send it to the newcomer when
either the table has no neighbors for the key or the newcomer beats the
farthest neighbor while the home node beats the nearest; then
`add_contact`.  Returns the new state and the `call_store` commands
`(target, key, value)` issued.  The storage keys are hashed again
(`Node(digest(key))`, protocol.py line 109) with the spec-modelled digest
`digestN`; the TTL cull that `ForgetfulStorage.__iter__` performs first is
not modelled (it only shrinks the iterated list and involves the clock, which
the handlers do not otherwise read). -/
def welcome_if_new (digestN : Nat → Nat) (p : Proto V) (c : Nat) :
    Proto V × List (Nat × Nat × V) :=
  if is_new_node p.router c = false then (p, [])
  else
    let cmds := p.storage.data.filterMap (fun e =>
      let keynode := digestN e.1
      let nbrs := find_neighbors p.router keynode p.ksize none
      match nbrs with
      | [] => some (c, e.1, e.2.2)
      | n0 :: _ =>
        let lastd := distance_to (nbrs.getLastD n0) keynode
        let firstd := distance_to n0 keynode
        if distance_to c keynode < lastd ∧ distance_to p.source_id keynode < firstd then
          some (c, e.1, e.2.2)
        else none)
    ({ p with router := add_contact p.router c }, cmds)

/-- `KademliaProtocol.rpc_stun(sender)`: echo the sender address. -/
def rpc_stun (p : Proto V) (sender : Nat × Nat) : Proto V × (Nat × Nat) :=
  (p, sender)

/-- `KademliaProtocol.rpc_ping(sender, node_id)`: welcome the sender, reply
with the home id. -/
def rpc_ping (digestN : Nat → Nat) (p : Proto V) (_sender : Nat × Nat) (nid : Nat) :
    Proto V × List (Nat × Nat × V) × Nat :=
  let w := welcome_if_new digestN p nid
  (w.1, w.2, p.source_id)

/-- `KademliaProtocol.rpc_store(sender, node_id, key, value)`: welcome the
sender, store the value, reply `True`. -/
def rpc_store (digestN : Nat → Nat) (p : Proto V) (now : ℚ) (_sender : Nat × Nat)
    (nid k : Nat) (v : V) : Proto V × List (Nat × Nat × V) × Bool :=
  let w := welcome_if_new digestN p nid
  ({ w.1 with storage := w.1.storage.setItem now k v }, w.2, true)

/-- `KademliaProtocol.rpc_find_node(sender, node_id, key)`: welcome the
sender, reply with the neighbors of the key excluding the sender. -/
def rpc_find_node (digestN : Nat → Nat) (p : Proto V) (_sender : Nat × Nat)
    (nid k : Nat) : Proto V × List (Nat × Nat × V) × List Nat :=
  let w := welcome_if_new digestN p nid
  (w.1, w.2, find_neighbors w.1.router k w.1.ksize (some nid))

/-- Reply payload of `rpc_find_value`. -/
inductive FindValueReply (V : Type)
  | value (v : V)
  | nodesR (ns : List Nat)

/-- `KademliaProtocol.rpc_find_value(sender, nodeid, key)`: welcome the
sender; reply the stored value, or fall through to `rpc_find_node` (which
welcomes the — by then known — sender again). -/
def rpc_find_value (digestN : Nat → Nat) (p : Proto V) (sender : Nat × Nat)
    (nid k : Nat) : Proto V × List (Nat × Nat × V) × FindValueReply V :=
  let w := welcome_if_new digestN p nid
  match w.1.storage.get k with
  | some v => (w.1, w.2, .value v)
  | none =>
    let r := rpc_find_node digestN w.1 sender nid k
    (r.1, w.2 ++ r.2.1, .nodesR r.2.2)

/-- Invariant of reachable `DynamicQuorum` states (defaults `1, 1, 3`; `N`
never changes; `R` stays in `[1, N-1]` and `W` in `[1, N]`). -/
def QInv (q : DynamicQuorum) : Prop :=
  q.min_r = 1 ∧ q.min_w = 1 ∧ q.min_n = 3 ∧ q.current_n = 3 ∧
    1 ≤ q.current_r ∧ q.current_r ≤ 2 ∧ 1 ≤ q.current_w ∧ q.current_w ≤ 3

/-- Invariant of reachable `ForgetfulStorage` states at clock reading `t`:
birthdays are nondecreasing in insertion order and never in the future. -/
def FsTimeOk (fs : ForgetfulStorage V) (t : ℚ) : Prop :=
  (fs.data.map (fun e => e.2.1)).Sorted (· ≤ ·) ∧ ∀ e ∈ fs.data, e.2.1 ≤ t

/-! ## Theorems -/

/-- C10: a call to `adjust_quorum` less than 5 seconds after the previous
adjustment returns before touching anything: the latency window, the failure
counter, `R`, `W`, `N` and `last_adjustment` all keep their values. -/
theorem C10_gate_no_change (q : DynamicQuorum) (now latency : ℚ) (success : Bool)
    (h : now - q.last_adjustment < 5) : q.adjust_quorum now latency success = q := by
  unfold DynamicQuorum.adjust_quorum
  simp [h]

/-- Witness for C10 at a concrete gated call. -/
theorem C10_gate_no_change_witness :
    (dynInit 0).adjust_quorum 1 2 true = dynInit 0 :=
  C10_gate_no_change (dynInit 0) 1 2 true (by norm_num [dynInit])

/-- C1 (code bug): with a non-empty spider result, `set_digest` returns
`True` even though every `STORE` reply is the failure tuple `(False, None)` —
`any()` truth-tests the rpcudp result 2-tuples and a non-empty tuple is
always truthy, contradicting the claim (and the source comment "return true
only if at least one store call succeeded"). -/
theorem C1_any_of_failures_is_true :
    set_digest (V := Nat) 100 0 (ForgetfulStorage.empty Nat)
      { neighbors := [2], spiderNodes := [2], storeReply := fun _ => (false, none),
        valueResult := none, spiderRpcs := [2] } 1 5
      = some (true, ForgetfulStorage.empty Nat, [2, 2]) := by
  rfl

/-- C2 (code bug): on an `ARCStorage` of capacity 1, after
`set(1,10); get(1); set(2,20); set(1,30)` the final `set` hits the ghost list
B2 and `_move_to_t2` stores `(now, None)`, so `get(1)` returns `None`
instead of the just-written value 30. -/
theorem C2_set_then_get_loses_value :
    (((ARCStorage.empty Nat 1).run
        [(0, ArcOp.setOp 1 10), (1, ArcOp.getOp 1), (2, ArcOp.setOp 2 20),
          (3, ArcOp.setOp 1 30)]).getValue 1).1 = none := by
  rfl

/-- C5: when the routing table yields no neighbors, `Server.get` (on a key
not in local storage) returns `None` and `Server.set_digest` returns `False`,
both without issuing any RPC and without touching the local storage. -/
theorem C5_no_neighbors (st : ForgetfulStorage V) (env : LookupEnv V)
    (home dkey : Nat) (now : ℚ) (v : V)
    (hget : st.get dkey = none) (hn : env.neighbors = []) :
    server_get st env dkey = (none, []) ∧
      set_digest home now st env dkey v = some (false, st, []) := by
  unfold server_get set_digest
  simp [hget, hn]

/-- Witness for C5 at a concrete empty environment. -/
theorem C5_no_neighbors_witness :
    server_get (ForgetfulStorage.empty Nat)
        { neighbors := [], spiderNodes := [], storeReply := fun _ => (false, none),
          valueResult := none, spiderRpcs := [] } 7 = (none, []) ∧
      set_digest 1 0 (ForgetfulStorage.empty Nat)
        { neighbors := [], spiderNodes := [], storeReply := fun _ => (false, none),
          valueResult := none, spiderRpcs := [] } 7 9
        = some (false, ForgetfulStorage.empty Nat, []) :=
  C5_no_neighbors (ForgetfulStorage.empty Nat) _ 1 7 0 9 (by rfl) (by rfl)

/-- C6: `Server.set` raises `TypeError` for any value whose runtime type is
not exactly one of int, float, bool, str, bytes — before any datagram is
emitted and with the local storage unchanged — and the type check passes for
every value of exactly one of those five types. -/
theorem C6_type_validation (pydigest : String → Nat) (home : Nat) (now : ℚ)
    (st : ForgetfulStorage PyVal) (env : LookupEnv PyVal) (key : String) (v : PyVal) :
    (v.typeOf ∉ [PyType.tInt, PyType.tFloat, PyType.tBool, PyType.tStr, PyType.tBytes] →
      server_set pydigest home now st env key v =
        { raised := true, crashed := false, result := none, storage := st, rpcs := [] }) ∧
    (v.typeOf ∈ [PyType.tInt, PyType.tFloat, PyType.tBool, PyType.tStr, PyType.tBytes] →
      check_dht_value_type v = true) := by
  constructor
  · intro hnot
    have hc : check_dht_value_type v = false := by
      simpa [check_dht_value_type] using hnot
    unfold server_set
    simp [hc]
  · intro hmem
    simp [check_dht_value_type, hmem]

/-- `welcome_if_new` leaves the sender in the routing table: a known sender
was already there, a new one is appended by `add_contact`. -/
theorem welcome_mem_router (digestN : Nat → Nat) (p : Proto V) (c : Nat) :
    c ∈ (welcome_if_new digestN p c).1.router := by
  unfold welcome_if_new
  by_cases h : is_new_node p.router c = false
  · simp only [h, if_true]
    have : p.router.contains c = true := by
      unfold is_new_node at h
      simpa using h
    simpa using this
  · simp only [h, if_false]
    simp [add_contact]

/-- `welcome_if_new` never removes contacts from the routing table. -/
theorem welcome_router_mono (digestN : Nat → Nat) (p : Proto V) (c x : Nat)
    (hx : x ∈ p.router) : x ∈ (welcome_if_new digestN p c).1.router := by
  unfold welcome_if_new
  by_cases h : is_new_node p.router c = false
  · simpa [h] using hx
  · simp [h, add_contact, hx]

/-- C4 (amended): the `ping`, `store`, `find_node` and `find_value` handlers
invoke `welcome_if_new` on the sender before their body's logic, so the
sender is in the routing table of the resulting state; the `stun` handler
does not invoke it at all — it echoes the sender address and leaves the
state untouched. -/
theorem C4_handlers_welcome {V : Type} (digestN : Nat → Nat) (p : Proto V)
    (s : Nat × Nat) (nid k : Nat) (now : ℚ) (v : V) :
    nid ∈ (rpc_ping digestN p s nid).1.router ∧
      nid ∈ (rpc_store digestN p now s nid k v).1.router ∧
      nid ∈ (rpc_find_node digestN p s nid k).1.router ∧
      nid ∈ (rpc_find_value digestN p s nid k).1.router ∧
      rpc_stun p s = (p, s) := by
  refine ⟨welcome_mem_router digestN p nid, welcome_mem_router digestN p nid, ?_, ?_, rfl⟩
  · exact welcome_mem_router digestN p nid
  · unfold rpc_find_value
    cases hv : ((welcome_if_new digestN p nid).1.storage.get k) with
    | some v' => simpa [hv] using welcome_mem_router digestN p nid
    | none =>
      simp only [hv]
      unfold rpc_find_node
      exact welcome_router_mono digestN _ nid nid (welcome_mem_router digestN p nid)

/-- C4 counterexample: handling a `stun` request does not welcome the sender
— on a state with an empty routing table the table stays empty (contrast the
other four handlers, which add the sender). -/
theorem C4_stun_counterexample :
    rpc_stun (⟨0, 20, [], ForgetfulStorage.empty Nat⟩ : Proto Nat) (1, 2) =
        (⟨0, 20, [], ForgetfulStorage.empty Nat⟩, (1, 2)) ∧
      (rpc_stun (⟨0, 20, [], ForgetfulStorage.empty Nat⟩ : Proto Nat) (1, 2)).1.router = [] :=
  ⟨rfl, rfl⟩

/-- Bounds delivered by one `quorum_update` step under the default minima
and `N = 3`. -/
theorem quorum_update_bounds (mr mw n r w : ℤ) (b : Bool) (hmr : mr = 1)
    (hmw : mw = 1) (hn : n = 3) (hr1 : 1 ≤ r) (hr2 : r ≤ 2) (hw1 : 1 ≤ w)
    (hw2 : w ≤ 3) :
    1 ≤ (quorum_update mr mw n r w b).1 ∧ (quorum_update mr mw n r w b).1 ≤ 2 ∧
      1 ≤ (quorum_update mr mw n r w b).2 ∧ (quorum_update mr mw n r w b).2 ≤ 3 ∧
      n < (quorum_update mr mw n r w b).1 + (quorum_update mr mw n r w b).2 := by
  subst hmr
  subst hmw
  subst hn
  simp only [quorum_update]
  split_ifs <;> dsimp only <;> omega

/-- The non-gated `adjust_quorum` result, field by field. -/
theorem adjust_quorum_fields (q : DynamicQuorum) (now latency : ℚ) (success : Bool)
    (hgate : ¬ (now - q.last_adjustment < 5)) :
    (q.adjust_quorum now latency success).min_r = q.min_r ∧
      (q.adjust_quorum now latency success).min_w = q.min_w ∧
      (q.adjust_quorum now latency success).min_n = q.min_n ∧
      (q.adjust_quorum now latency success).current_n = q.current_n ∧
      (q.adjust_quorum now latency success).current_r =
        (quorum_update q.min_r q.min_w q.current_n q.current_r q.current_w
          (dqHigh (dqWindow q.response_times latency)
            (dqFail q.failure_counts success))).1 ∧
      (q.adjust_quorum now latency success).current_w =
        (quorum_update q.min_r q.min_w q.current_n q.current_r q.current_w
          (dqHigh (dqWindow q.response_times latency)
            (dqFail q.failure_counts success))).2 := by
  unfold DynamicQuorum.adjust_quorum
  rw [if_neg hgate]
  exact ⟨rfl, rfl, rfl, rfl, rfl, rfl⟩

/-- Every `adjust_quorum` call preserves the reachable-state invariant. -/
theorem adjust_quorum_QInv (q : DynamicQuorum) (now latency : ℚ) (success : Bool)
    (h : QInv q) : QInv (q.adjust_quorum now latency success) := by
  obtain ⟨h1, h2, h3, h4, h5, h6, h7, h8⟩ := h
  by_cases hg : now - q.last_adjustment < 5
  · unfold DynamicQuorum.adjust_quorum
    rw [if_pos hg]
    exact ⟨h1, h2, h3, h4, h5, h6, h7, h8⟩
  · obtain ⟨emr, emw, emn, en, er, ew⟩ := adjust_quorum_fields q now latency success hg
    have hb := quorum_update_bounds q.min_r q.min_w q.current_n q.current_r
      q.current_w (dqHigh (dqWindow q.response_times latency)
        (dqFail q.failure_counts success)) h1 h2 h4 h5 h6 h7 h8
    refine ⟨?_, ?_, ?_, ?_, ?_, ?_, ?_, ?_⟩ <;>
      simp only [emr, emw, emn, en, er, ew] <;>
        first
          | assumption
          | omega

/-- Reachable controller states satisfy the invariant. -/
theorem QReachable_QInv (q : DynamicQuorum) (h : QReachable q) : QInv q := by
  induction h with
  | init t0 =>
    exact ⟨rfl, rfl, rfl, rfl, by norm_num [dynInit], by norm_num [dynInit],
      by norm_num [dynInit], by norm_num [dynInit]⟩
  | step now latency success _ _ ih => exact adjust_quorum_QInv _ now latency success ih

/-- C3 counterexample: from the reachable initial state (R=1, W=1, N=3), a
non-gated healthy `adjust` sets `W = N - R + 1 = 3 = N`, violating
`W ≤ N - 1`; and a gated `adjust` returns the initial state unchanged, which
violates `R + W > N` (1 + 1 ≤ 3). -/
theorem C3_counterexample :
    QReachable (dynInit 0) ∧
      ¬ (((dynInit 0).adjust_quorum 6 0 true).current_w ≤
          ((dynInit 0).adjust_quorum 6 0 true).current_n - 1) ∧
      (dynInit 0).adjust_quorum 1 0 true = dynInit 0 ∧
      ¬ ((dynInit 0).current_n < (dynInit 0).current_r + (dynInit 0).current_w) := by
  refine ⟨QReachable.init 0, ?_, ?_, by norm_num [dynInit]⟩
  · have heval : (dynInit 0).adjust_quorum 6 0 true =
        { min_r := 1, min_w := 1, min_n := 3, current_r := 1, current_w := 3,
          current_n := 3, response_times := [0], failure_counts := 0,
          last_adjustment := 6 } := by
      norm_num [dynInit, DynamicQuorum.adjust_quorum, dqWindow, dqFail, dqHigh,
        quorum_update]
    rw [heval]
    norm_num
  · norm_num [DynamicQuorum.adjust_quorum, dynInit]

/-- C3 (amended): after every `adjust_quorum` call that passes the 5-second
gate, from every reachable prior state and for every latency/success input,
the controller satisfies `R + W > N`, `min_r ≤ R ≤ N - 1` and
`min_w ≤ W ≤ N` (the final `W = N - R + 1` fix-up can set `W = N`, so `N`,
not `N - 1`, is the true upper bound for `W`). -/
theorem C3_quorum_invariant (q : DynamicQuorum) (now latency : ℚ) (success : Bool)
    (hq : QReachable q) (hgap : 5 ≤ now - q.last_adjustment) :
    ((q.adjust_quorum now latency success).current_n <
        (q.adjust_quorum now latency success).current_r +
          (q.adjust_quorum now latency success).current_w) ∧
      (q.adjust_quorum now latency success).min_r ≤
        (q.adjust_quorum now latency success).current_r ∧
      (q.adjust_quorum now latency success).current_r ≤
        (q.adjust_quorum now latency success).current_n - 1 ∧
      (q.adjust_quorum now latency success).min_w ≤
        (q.adjust_quorum now latency success).current_w ∧
      (q.adjust_quorum now latency success).current_w ≤
        (q.adjust_quorum now latency success).current_n := by
  obtain ⟨h1, h2, h3, h4, h5, h6, h7, h8⟩ := QReachable_QInv q hq
  have hgate : ¬ (now - q.last_adjustment < 5) := not_lt.mpr hgap
  obtain ⟨emr, emw, emn, en, er, ew⟩ := adjust_quorum_fields q now latency success hgate
  have hb := quorum_update_bounds q.min_r q.min_w q.current_n q.current_r
    q.current_w (dqHigh (dqWindow q.response_times latency)
      (dqFail q.failure_counts success)) h1 h2 h4 h5 h6 h7 h8
  refine ⟨?_, ?_, ?_, ?_, ?_⟩ <;> simp only [emr, emw, emn, en, er, ew] <;> omega

/-- Witness for C3's amended theorem at a concrete non-gated call. -/
theorem C3_quorum_invariant_witness :
    (((dynInit 1).adjust_quorum 7 0 false).current_n <
        ((dynInit 1).adjust_quorum 7 0 false).current_r +
          ((dynInit 1).adjust_quorum 7 0 false).current_w) ∧
      ((dynInit 1).adjust_quorum 7 0 false).min_r ≤
        ((dynInit 1).adjust_quorum 7 0 false).current_r ∧
      ((dynInit 1).adjust_quorum 7 0 false).current_r ≤
        ((dynInit 1).adjust_quorum 7 0 false).current_n - 1 ∧
      ((dynInit 1).adjust_quorum 7 0 false).min_w ≤
        ((dynInit 1).adjust_quorum 7 0 false).current_w ∧
      ((dynInit 1).adjust_quorum 7 0 false).current_w ≤
        ((dynInit 1).adjust_quorum 7 0 false).current_n :=
  C3_quorum_invariant (dynInit 1) 7 0 false (QReachable.init 1) (by norm_num [dynInit])

/-- `heappush` only reorders: the result is a permutation of consing. -/
theorem heappush_perm (l : List (Nat × Nat)) (e : Nat × Nat) :
    (heappush l e).Perm (e :: l) := by
  induction l with
  | nil => exact List.Perm.refl _
  | cons x xs ih =>
    unfold heappush
    split
    · exact List.Perm.refl _
    · exact (ih.cons x).trans (List.Perm.swap e x xs)

/-- `push` of a single node keeps the node ids duplicate-free. -/
theorem push1_nodup (h : NodeHeap) (n : Nat)
    (hn : (h.heap.map Prod.snd).Nodup) : ((h.push1 n).heap.map Prod.snd).Nodup := by
  unfold NodeHeap.push1
  split
  · exact hn
  · rename_i hc
    have hperm : ((heappush h.heap (distance_to h.node n, n)).map Prod.snd).Perm
        (n :: h.heap.map Prod.snd) := by
      simpa using (heappush_perm h.heap (distance_to h.node n, n)).map Prod.snd
    have hmem : n ∉ h.heap.map Prod.snd := by
      intro hm
      apply hc
      obtain ⟨e, he, heq⟩ := List.mem_map.mp hm
      unfold NodeHeap.containsId
      rw [List.any_eq_true]
      exact ⟨e, he, by simp [heq]⟩
    exact (List.Perm.nodup_iff hperm).mpr (List.nodup_cons.mpr ⟨hmem, hn⟩)

/-- `push` of a node list keeps the node ids duplicate-free. -/
theorem push_nodup (ns : List Nat) : ∀ (h : NodeHeap),
    (h.heap.map Prod.snd).Nodup → ((h.push ns).heap.map Prod.snd).Nodup := by
  induction ns with
  | nil => exact fun h hn => hn
  | cons n ns ih =>
    intro h hn
    exact ih (h.push1 n) (push1_nodup h n hn)

/-- The `remove` rebuild is a permutation of the accumulator followed by the
kept entries. -/
theorem remove_rebuild_perm (peers : List Nat) (l : List (Nat × Nat)) :
    ∀ acc : List (Nat × Nat),
      (l.foldl (fun acc e => if e.2 ∈ peers then acc else heappush acc e) acc).Perm
        (acc ++ l.filter (fun e => decide (e.2 ∉ peers))) := by
  induction l with
  | nil => intro acc; simp
  | cons e es ih =>
    intro acc
    by_cases he : e.2 ∈ peers
    · simpa [List.filter_cons, he] using ih acc
    · have step1 := ih (heappush acc e)
      have step2 : (heappush acc e ++ es.filter (fun e => decide (e.2 ∉ peers))).Perm
          (acc ++ e :: es.filter (fun e => decide (e.2 ∉ peers))) :=
        ((heappush_perm acc e).append_right _).trans List.perm_middle.symm
      simpa [List.filter_cons, he] using step1.trans step2

/-- `remove` keeps the node ids duplicate-free. -/
theorem remove_nodup (h : NodeHeap) (peers : List Nat)
    (hn : (h.heap.map Prod.snd).Nodup) : ((h.remove peers).heap.map Prod.snd).Nodup := by
  unfold NodeHeap.remove
  split
  · exact hn
  · have hperm := (remove_rebuild_perm peers h.heap []).map Prod.snd
    refine (List.Perm.nodup_iff hperm).mpr ?_
    simp only [List.nil_append]
    exact hn.sublist ((List.filter_sublist h.heap).map Prod.snd)

/-- Any sequence of push/remove operations keeps the node ids
duplicate-free. -/
theorem runOps_nodup (ops : List HeapOp) : ∀ (h : NodeHeap),
    (h.heap.map Prod.snd).Nodup → ((h.runOps ops).heap.map Prod.snd).Nodup := by
  induction ops with
  | nil => exact fun h hn => hn
  | cons op rest ih =>
    intro h hn
    cases op with
    | pushOp ns => exact ih (h.push ns) (push_nodup ns h hn)
    | removeOp ps => exact ih (h.remove ps) (remove_nodup h ps hn)

/-- C9: after any sequence of push and remove operations a `NodeHeap` holds
at most one entry per node id, and pushing a node whose id is already present
leaves the heap (indeed the whole state) unchanged. -/
theorem C9_nodeheap_unique :
    (∀ (node maxsize : Nat) (ops : List HeapOp),
      (((NodeHeap.new node maxsize).runOps ops).heap.map Prod.snd).Nodup) ∧
      ∀ (h : NodeHeap) (n : Nat), h.containsId n = true → h.push1 n = h := by
  constructor
  · intro node maxsize ops
    exact runOps_nodup ops _ (by simp [NodeHeap.new])
  · intro h n hc
    unfold NodeHeap.push1
    rw [if_pos hc]

/-- Witness for C9 on a concrete heap. -/
theorem C9_nodeheap_unique_witness :
    ((((NodeHeap.new 0 20).runOps [HeapOp.pushOp [1, 2], HeapOp.removeOp [1]]).heap.map
        Prod.snd).Nodup) ∧
      ((NodeHeap.new 0 20).push [5]).push1 5 = (NodeHeap.new 0 20).push [5] :=
  ⟨C9_nodeheap_unique.1 0 20 _, C9_nodeheap_unique.2 _ 5 (by rfl)⟩

/-- On a list whose birthdays are nondecreasing, `takewhile` over the
birthday cutoff returns exactly the matching entries. -/
theorem takeWhile_birthday_filter {V : Type} (c : ℚ) :
    ∀ l : List (Nat × ℚ × V), (l.map (fun e => e.2.1)).Sorted (· ≤ ·) →
      l.takeWhile (fun e => decide (e.2.1 ≤ c)) =
        l.filter (fun e => decide (e.2.1 ≤ c)) := by
  intro l
  induction l with
  | nil => intro _; rfl
  | cons e es ih =>
    intro hs
    rw [List.map_cons] at hs
    by_cases hc : e.2.1 ≤ c
    · simp [List.takeWhile_cons, List.filter_cons, hc, ih hs.of_cons]
    · have hnil : es.filter (fun x => decide (x.2.1 ≤ c)) = [] := by
        rw [List.filter_eq_nil_iff]
        intro x hx
        have hle : e.2.1 ≤ x.2.1 :=
          List.rel_of_sorted_cons hs _ (List.mem_map_of_mem _ hx)
        simpa using fun hxc => hc (le_trans hle hxc)
      simp [List.takeWhile_cons, List.filter_cons, hc, hnil]

/-- Reachable `ForgetfulStorage` states have nondecreasing birthdays, all in
the past: `set` always appends the current (largest-so-far) clock reading and
`cull` drops a prefix. -/
theorem fsReach_timeOk {V : Type} (fs : ForgetfulStorage V) (t : ℚ)
    (h : FsReach V fs t) : FsTimeOk fs t := by
  induction h with
  | empty ttl t0 => exact ⟨List.sorted_nil, by simp⟩
  | set t' k v hr hle ih =>
    obtain ⟨hsort, hbound⟩ := ih
    constructor
    · unfold ForgetfulStorage.setItem
      rw [List.map_append]
      refine List.pairwise_append.mpr
        ⟨hsort.sublist ((List.filter_sublist _).map _), by simp, ?_⟩
      intro a ha b hb
      simp only [List.map_cons, List.map_nil, List.mem_singleton] at hb
      subst hb
      obtain ⟨e, he, heq⟩ := List.mem_map.mp ha
      subst heq
      exact le_trans (hbound e (List.mem_of_mem_filter he)) hle
    · unfold ForgetfulStorage.setItem
      intro e he
      rcases List.mem_append.mp he with h1 | h1
      · exact le_trans (hbound e (List.mem_of_mem_filter h1)) hle
      · simp only [List.mem_singleton] at h1
        subst h1
        exact le_refl _
  | cull t' hr hle ih =>
    obtain ⟨hsort, hbound⟩ := ih
    refine ⟨hsort.sublist ((List.drop_sublist _ _).map _), ?_⟩
    intro e he
    exact le_trans (hbound e (List.mem_of_mem_drop he)) hle
  | tick t' hr hle ih =>
    obtain ⟨hsort, hbound⟩ := ih
    exact ⟨hsort, fun e he => le_trans (hbound e he) hle⟩

/-- Membership in a filtered-by-cutoff projection to `(key, value)`. -/
theorem mem_proj_filter {V : Type} (l : List (Nat × ℚ × V)) (c : ℚ) (k : Nat) (v : V) :
    ((k, v) ∈ (l.filter (fun e => decide (e.2.1 ≤ c))).map (fun e => (e.1, e.2.2)) ↔
      ∃ b, (k, b, v) ∈ l ∧ b ≤ c) := by
  constructor
  · intro hm
    obtain ⟨e, he, heq⟩ := List.mem_map.mp hm
    obtain ⟨he1, he2⟩ := List.mem_filter.mp he
    have hk : e.1 = k := congrArg Prod.fst heq
    have hv : e.2.2 = v := congrArg (fun p => p.2) heq
    refine ⟨e.2.1, ?_, by simpa using he2⟩
    have hee : (k, e.2.1, v) = e := by rw [← hk, ← hv]
    rwa [hee]
  · rintro ⟨b, hmem, hb⟩
    exact List.mem_map.mpr ⟨(k, b, v), List.mem_filter.mpr ⟨hmem, by simpa using hb⟩, rfl⟩

/-- C8: for every reachable storage state and every Δ ≥ 0, `iter_older_than`
yields exactly the (key, value) pairs of entries with birthday ≤ now − Δ —
for `ForgetfulStorage` (whose `takewhile` is exact because reachable states
keep birthdays nondecreasing in insertion order) and for `ARCStorage` (whose
live entries are those of T1 and T2). -/
theorem C8_iter_older_exact :
    (∀ (V : Type) (fs : ForgetfulStorage V) (t : ℚ), FsReach V fs t →
      ∀ Δ : ℚ, 0 ≤ Δ → ∀ (k : Nat) (v : V),
        ((k, v) ∈ fs.iter_older_than t Δ ↔ ∃ b, (k, b, v) ∈ fs.data ∧ b ≤ t - Δ)) ∧
      ∀ (V : Type) (s : ARCStorage V) (now Δ : ℚ), 0 ≤ Δ →
        ∀ (k : Nat) (ov : Option V),
          ((k, ov) ∈ s.iter_older_than now Δ ↔
            ∃ ts, ((k, ts, ov) ∈ s.T1 ∨ (k, ts, ov) ∈ s.T2) ∧ ts ≤ now - Δ) := by
  constructor
  · intro V fs t hr Δ _ k v
    obtain ⟨hsort, _⟩ := fsReach_timeOk fs t hr
    unfold ForgetfulStorage.iter_older_than
    rw [takeWhile_birthday_filter (t - Δ) fs.data hsort]
    exact mem_proj_filter fs.data (t - Δ) k v
  · intro V s now Δ _ k ov
    unfold ARCStorage.iter_older_than
    rw [List.mem_append]
    rw [mem_proj_filter s.T1 (now - Δ) k ov, mem_proj_filter s.T2 (now - Δ) k ov]
    constructor
    · rintro (⟨b, hm, hb⟩ | ⟨b, hm, hb⟩)
      · exact ⟨b, Or.inl hm, hb⟩
      · exact ⟨b, Or.inr hm, hb⟩
    · rintro ⟨b, hm | hm, hb⟩
      · exact Or.inl ⟨b, hm, hb⟩
      · exact Or.inr ⟨b, hm, hb⟩

/-- Witness for C8 on a one-entry `ForgetfulStorage` and a one-entry
`ARCStorage`. -/
theorem C8_iter_older_exact_witness :
    ((5, 42) ∈ ((⟨[], 604800⟩ : ForgetfulStorage Nat).setItem 1 5 42).iter_older_than 1 0 ↔
      ∃ b, (5, b, 42) ∈ ((⟨[], 604800⟩ : ForgetfulStorage Nat).setItem 1 5 42).data ∧
        b ≤ 1 - 0) ∧
      ((7, some 3) ∈ (⟨2, 0, [(7, 0, some 3)], [], [], []⟩ : ARCStorage Nat).iter_older_than 1 0 ↔
        ∃ ts, ((7, ts, some 3) ∈ [(7, (0 : ℚ), some 3)] ∨ (7, ts, some 3) ∈ ([] : List (Nat × ℚ × Option Nat))) ∧
          ts ≤ 1 - 0) :=
  ⟨C8_iter_older_exact.1 Nat _ 1
      (FsReach.set 1 5 42 (FsReach.empty 604800 0) (by norm_num)) 0 (by norm_num) 5 42,
    C8_iter_older_exact.2 Nat ⟨2, 0, [(7, 0, some 3)], [], [], []⟩ 1 0 (by norm_num) 7 (some 3)⟩

/-- Dict assignment grows the dict by at most one slot. -/
theorem odSet_length_le (k : Nat) (tv : ℚ × α) (l : List (Nat × ℚ × α)) :
    (odSet k tv l).length ≤ l.length + 1 := by
  induction l with
  | nil => simp [odSet]
  | cons e es ih =>
    unfold odSet
    split
    · simp
    · simp only [List.length_cons]
      omega

/-- Dict assignment to a present key keeps the length. -/
theorem odSet_length_of_mem (k : Nat) (tv : ℚ × α) (l : List (Nat × ℚ × α))
    (hk : odMem k l = true) : (odSet k tv l).length = l.length := by
  induction l with
  | nil => simp [odMem] at hk
  | cons e es ih =>
    unfold odSet
    split
    · simp
    · rename_i hne
      have hk' : odMem k es = true := by
        simp only [odMem, List.any_cons, beq_iff_eq, Bool.or_eq_true, decide_eq_true_eq] at hk ⊢
        rcases hk with h | h
        · exact absurd h hne
        · exact h
      simp only [List.length_cons, ih hk']

/-- Dict deletion never grows the dict. -/
theorem odErase_length_le (k : Nat) (l : List (Nat × ℚ × α)) :
    (odErase k l).length ≤ l.length :=
  List.length_filter_le _ _

/-- Deleting a present key strictly shrinks the dict. -/
theorem odErase_length_lt (k : Nat) (l : List (Nat × ℚ × α))
    (hk : odMem k l = true) : (odErase k l).length < l.length := by
  induction l with
  | nil => simp [odMem] at hk
  | cons e es ih =>
    by_cases he : e.1 = k
    · have hdrop : (e :: es).filter (fun x => decide (x.1 ≠ k)) =
          es.filter (fun x => decide (x.1 ≠ k)) := by
        simp [List.filter_cons, he]
      unfold odErase
      rw [hdrop]
      exact Nat.lt_succ_of_le (List.length_filter_le _ _)
    · have hk' : odMem k es = true := by
        simp only [odMem, List.any_cons, beq_iff_eq, Bool.or_eq_true, decide_eq_true_eq] at hk ⊢
        rcases hk with h | h
        · exact absurd h he
        · exact h
      have hlt := ih hk'
      have hkeep : (e :: es).filter (fun x => decide (x.1 ≠ k)) =
          e :: es.filter (fun x => decide (x.1 ≠ k)) := by
        simp [List.filter_cons, he]
      unfold odErase at *
      rw [hkeep]
      simpa using Nat.succ_lt_succ hlt

/-- A successful `odFind?` witnesses membership of the key. -/
theorem odFind?_odMem (k : Nat) (l : List (Nat × ℚ × α)) (e : Nat × ℚ × α)
    (h : odFind? k l = some e) : odMem k l = true := by
  have h' : l.find? (fun x => x.1 == k) = some e := by
    simpa [odFind?] using h
  have hm := List.mem_of_find?_eq_some h'
  have hp := List.find?_some h'
  simp only [odMem, List.any_eq_true]
  exact ⟨e, hm, hp⟩

/-- `move_to_end` then assignment to the same key never grows the dict. -/
theorem odSet_moveToEnd_length_le (k : Nat) (tv : ℚ × α) (l : List (Nat × ℚ × α))
    (hk : odMem k l = true) : (odSet k tv (odMoveToEnd k l)).length ≤ l.length := by
  unfold odMoveToEnd
  cases hf : odFind? k l with
  | none => rw [odSet_length_of_mem k tv l hk]
  | some e =>
    have hf' : l.find? (fun x => x.1 == k) = some e := by
      simpa [odFind?] using hf
    have hek : (e.1 == k) = true := by
      simpa using List.find?_some hf'
    have hmem : odMem k (odErase k l ++ [e]) = true := by
      simp [odMem, List.any_append, hek]
    rw [odSet_length_of_mem k tv _ hmem]
    rw [List.length_append, List.length_cons, List.length_nil]
    have := odErase_length_lt k l hk
    omega

/-- A successful `_replace` moves exactly one entry from T1 ∪ T2 to a ghost
list: the live size drops by one and no sum grows. -/
theorem replaceOp_spec {V : Type} (s s' : ARCStorage V) (k : Nat)
    (h : s.replaceOp k = some s') :
    s'.capacity = s.capacity ∧
      s'.T1.length + s'.T2.length + 1 = s.T1.length + s.T2.length ∧
      s'.T1.length + s'.B1.length ≤ s.T1.length + s.B1.length ∧
      s'.T1.length + s'.T2.length + s'.B1.length + s'.B2.length ≤
        s.T1.length + s.T2.length + s.B1.length + s.B2.length := by
  unfold ARCStorage.replaceOp at h
  split at h
  · cases hT1 : s.T1 with
    | nil => rw [hT1] at h; cases h
    | cons e rest =>
      rw [hT1] at h
      dsimp only at h
      injection h with h
      subst h
      have hb := odSet_length_le e.1 e.2 s.B1
      refine ⟨rfl, ?_, ?_, ?_⟩ <;> simp only [hT1, List.length_cons] <;> omega
  · cases hT2 : s.T2 with
    | nil => rw [hT2] at h; cases h
    | cons e rest =>
      rw [hT2] at h
      dsimp only at h
      injection h with h
      subst h
      have hb := odSet_length_le e.1 e.2 s.B2
      refine ⟨rfl, ?_, ?_, ?_⟩ <;> simp only [hT2, List.length_cons] <;> omega

/-- A successful `_move_to_t2` touches only `T2`, growing it by at most one
slot. -/
theorem move_to_t2_spec {V : Type} (s s' : ARCStorage V) (now : ℚ) (k : Nat)
    (h : s.move_to_t2 now k = some s') :
    s'.capacity = s.capacity ∧ s'.p = s.p ∧ s'.T1 = s.T1 ∧ s'.B1 = s.B1 ∧
      s'.B2 = s.B2 ∧ s'.T2.length ≤ s.T2.length + 1 := by
  unfold ARCStorage.move_to_t2 at h
  split at h
  · cases hT2 : s.T2 with
    | nil => rw [hT2] at h; cases h
    | cons e rest =>
      rw [hT2] at h
      dsimp only at h
      injection h with h
      subst h
      have hb := odSet_length_le k ((now : ℚ), (none : Option V)) rest
      refine ⟨rfl, rfl, rfl, rfl, rfl, ?_⟩
      simp only [hT2, List.length_cons]
      omega
  · injection h with h
    subst h
    have hb := odSet_length_le k ((now : ℚ), (none : Option V)) s.T2
    exact ⟨rfl, rfl, rfl, rfl, rfl, hb⟩

/-- Package the three ARC size bounds into `sizeInv`. -/
theorem sizeInv_of_bounds {V : Type} (s : ARCStorage V)
    (h1 : s.T1.length + s.T2.length ≤ s.capacity)
    (h2 : s.T1.length + s.B1.length ≤ s.capacity)
    (h3 : s.T1.length + s.T2.length + s.B1.length + s.B2.length ≤ 2 * s.capacity) :
    s.sizeInv :=
  ⟨h1, h2, h3⟩

/-- The fresh-key ghost-trimming step of `__setitem__` (storage.py lines
121-128): on failure the partially mutated state still satisfies the
invariants; on success the state can absorb the upcoming T1 insertion. -/
theorem fresh_step2_spec {V : Type} (s1 : ARCStorage V) (k : Nat)
    (hsum : s1.T1.length + s1.T2.length + 1 ≤ s1.capacity)
    (hinv2 : s1.T1.length + s1.B1.length ≤ s1.capacity)
    (hinv3 : s1.T1.length + s1.T2.length + s1.B1.length + s1.B2.length ≤
      2 * s1.capacity) :
    ∀ p : ARCStorage V × Bool,
      (if s1.T1.length + s1.B1.length = s1.capacity then
        if s1.T1.length < s1.capacity then
          match s1.B1 with
          | [] => (s1, false)
          | _ :: rest =>
            match ARCStorage.replaceOp { s1 with B1 := rest } k with
            | none => ({ s1 with B1 := rest }, false)
            | some s' => (s', true)
        else (s1, true)
      else if s1.T1.length + s1.B1.length < s1.capacity then
        if s1.capacity ≤ s1.total then
          if s1.total = 2 * s1.capacity then
            match s1.B2 with
            | [] => (s1, false)
            | _ :: rest => ({ s1 with B2 := rest }, true)
          else (s1, true)
        else (s1, true)
      else (s1, true)) = p →
      (p.2 = false → p.1.sizeInv) ∧
        (p.2 = true → p.1.capacity = s1.capacity ∧
          p.1.T1.length + p.1.T2.length + 1 ≤ s1.capacity ∧
          p.1.T1.length + p.1.B1.length + 1 ≤ s1.capacity ∧
          p.1.T1.length + p.1.T2.length + p.1.B1.length + p.1.B2.length + 1 ≤
            2 * s1.capacity) := by
  have htot : s1.total =
      s1.T1.length + s1.T2.length + s1.B1.length + s1.B2.length := rfl
  intro p hp
  split at hp
  · rename_i hA
    split at hp
    · rename_i hA1
      cases hB1 : s1.B1 with
      | nil =>
        rw [hB1] at hp
        dsimp only at hp
        subst hp
        refine ⟨fun _ => sizeInv_of_bounds s1 (by omega) (by omega) (by omega), ?_⟩
        intro hcontra
        simp at hcontra
      | cons b rest =>
        rw [hB1] at hp
        dsimp only at hp
        have hB1len : s1.B1.length = rest.length + 1 := by rw [hB1]; rfl
        cases hrep : ARCStorage.replaceOp { s1 with B1 := rest } k with
        | none =>
          rw [hrep] at hp
          subst hp
          refine ⟨fun _ => sizeInv_of_bounds _ ?_ ?_ ?_, ?_⟩
          · dsimp only; omega
          · dsimp only; omega
          · dsimp only; omega
          · intro hcontra
            simp at hcontra
        | some s' =>
          rw [hrep] at hp
          subst hp
          have hr := replaceOp_spec _ s' k hrep
          dsimp only at hr
          refine ⟨?_, fun _ => ?_⟩
          · intro hcontra
            simp at hcontra
          · dsimp only
            refine ⟨hr.1, ?_, ?_, ?_⟩ <;> omega
    · rename_i hA2
      subst hp
      refine ⟨?_, fun _ => ?_⟩
      · intro hcontra
        simp at hcontra
      · dsimp only
        refine ⟨rfl, ?_, ?_, ?_⟩ <;> omega
  · rename_i hA
    split at hp
    · rename_i hB
      split at hp
      · rename_i hBfull
        split at hp
        · rename_i hB2cap
          cases hB2 : s1.B2 with
          | nil =>
            rw [hB2] at hp
            dsimp only at hp
            subst hp
            refine ⟨fun _ => sizeInv_of_bounds s1 (by omega) (by omega) (by omega), ?_⟩
            intro hcontra
            simp at hcontra
          | cons b rest =>
            rw [hB2] at hp
            dsimp only at hp
            subst hp
            have hB2len : s1.B2.length = rest.length + 1 := by rw [hB2]; rfl
            refine ⟨?_, fun _ => ?_⟩
            · intro hcontra
              simp at hcontra
            · dsimp only
              refine ⟨rfl, ?_, ?_, ?_⟩ <;> omega
        · rename_i hB2cap
          subst hp
          refine ⟨?_, fun _ => ?_⟩
          · intro hcontra
            simp at hcontra
          · dsimp only
            refine ⟨rfl, ?_, ?_, ?_⟩ <;> omega
      · rename_i hBsmall
        subst hp
        refine ⟨?_, fun _ => ?_⟩
        · intro hcontra
          simp at hcontra
        · dsimp only
          refine ⟨rfl, ?_, ?_, ?_⟩ <;> omega
    · rename_i hB
      subst hp
      refine ⟨?_, fun _ => ?_⟩
      · intro hcontra
        simp at hcontra
      · dsimp only
        refine ⟨rfl, ?_, ?_, ?_⟩ <;> omega

/-- `move_to_end` never grows the dict. -/
theorem odMoveToEnd_length_le (k : Nat) (l : List (Nat × ℚ × α)) :
    (odMoveToEnd k l).length ≤ l.length := by
  unfold odMoveToEnd
  cases hf : odFind? k l with
  | none => exact le_refl _
  | some e =>
    have hm := odFind?_odMem k l e hf
    rw [List.length_append, List.length_cons, List.length_nil]
    have := odErase_length_lt k l hm
    omega

/-- `__setitem__` preserves the three ARC size invariants, in every branch
and also on the partially mutated state a `KeyError` leaves behind. -/
theorem setItem_sizeInv {V : Type} (s : ARCStorage V) (now : ℚ) (k : Nat) (v : V)
    (h : s.sizeInv) : ((s.setItem now k v).1).sizeInv := by
  obtain ⟨i1, i2, i3⟩ := h
  have htot : s.total =
      s.T1.length + s.T2.length + s.B1.length + s.B2.length := rfl
  rw [htot] at i3
  unfold ARCStorage.setItem
  split
  · rename_i hT1
    have e1 := odErase_length_lt k s.T1 hT1
    have e2 := odSet_length_le k ((now : ℚ), some v) s.T2
    exact sizeInv_of_bounds _ (by dsimp only; omega) (by dsimp only; omega)
      (by dsimp only; omega)
  · split
    · rename_i hT2
      have e2 := odSet_moveToEnd_length_le k ((now : ℚ), some v) s.T2 hT2
      exact sizeInv_of_bounds _ (by dsimp only; omega) (by dsimp only; omega)
        (by dsimp only; omega)
    · cases hstep1 : (if s.capacity ≤ s.T1.length + s.T2.length then s.replaceOp k
          else some s) with
      | none =>
        dsimp only
        exact sizeInv_of_bounds s i1 i2 (by omega)
      | some s1 =>
        have hs1 : s1.capacity = s.capacity ∧
            s1.T1.length + s1.T2.length + 1 ≤ s.capacity ∧
            s1.T1.length + s1.B1.length ≤ s.capacity ∧
            s1.T1.length + s1.T2.length + s1.B1.length + s1.B2.length ≤
              2 * s.capacity := by
          by_cases hcap : s.capacity ≤ s.T1.length + s.T2.length
          · rw [if_pos hcap] at hstep1
            have hr := replaceOp_spec s s1 k hstep1
            exact ⟨hr.1, by omega, by omega, by omega⟩
          · rw [if_neg hcap] at hstep1
            injection hstep1 with hstep1
            subst hstep1
            exact ⟨rfl, by omega, i2, by omega⟩
        obtain ⟨hc1, hc2, hc3, hc4⟩ := hs1
        rw [← hc1] at hc2 hc3 hc4
        dsimp only
        split
        · rename_i hB1
          cases hmv : ARCStorage.move_to_t2
              { s1 with
                p := min s1.capacity (s1.p + max (s1.B2.length / s1.B1.length) 1) }
              now k with
          | none =>
            dsimp only
            exact sizeInv_of_bounds _ (by dsimp only; omega) (by dsimp only; omega)
              (by dsimp only; omega)
          | some s3 =>
            dsimp only
            have hm := move_to_t2_spec _ s3 now k hmv
            dsimp only at hm
            obtain ⟨hm1, _, hm3, hm4, hm5, hm6⟩ := hm
            have hT1len : s3.T1.length = s1.T1.length := by rw [hm3]
            have hB1len : s3.B1.length = s1.B1.length := by rw [hm4]
            have hB2len : s3.B2.length = s1.B2.length := by rw [hm5]
            have hB1lt : (odErase k s3.B1).length < s3.B1.length :=
              odErase_length_lt k s3.B1 (by rw [hm4]; exact hB1)
            exact sizeInv_of_bounds _ (by dsimp only; omega) (by dsimp only; omega)
              (by dsimp only; omega)
        · split
          · rename_i hB2
            cases hmv : ARCStorage.move_to_t2
                { s1 with p := s1.p - max (s1.B1.length / s1.B2.length) 1 } now k with
            | none =>
              dsimp only
              exact sizeInv_of_bounds _ (by dsimp only; omega) (by dsimp only; omega)
                (by dsimp only; omega)
            | some s3 =>
              dsimp only
              have hm := move_to_t2_spec _ s3 now k hmv
              dsimp only at hm
              obtain ⟨hm1, _, hm3, hm4, hm5, hm6⟩ := hm
              have hT1len : s3.T1.length = s1.T1.length := by rw [hm3]
              have hB1len : s3.B1.length = s1.B1.length := by rw [hm4]
              have hB2len : s3.B2.length = s1.B2.length := by rw [hm5]
              have hB2lt : (odErase k s3.B2).length < s3.B2.length :=
                odErase_length_lt k s3.B2 (by rw [hm5]; exact hB2)
              exact sizeInv_of_bounds _ (by dsimp only; omega) (by dsimp only; omega)
                (by dsimp only; omega)
          · cases hstep2 : (if s1.T1.length + s1.B1.length = s1.capacity then
                if s1.T1.length < s1.capacity then
                  match s1.B1 with
                  | [] => (s1, false)
                  | _ :: rest =>
                    match ARCStorage.replaceOp { s1 with B1 := rest } k with
                    | none => ({ s1 with B1 := rest }, false)
                    | some s' => (s', true)
                else (s1, true)
              else if s1.T1.length + s1.B1.length < s1.capacity then
                if s1.capacity ≤ s1.total then
                  if s1.total = 2 * s1.capacity then
                    match s1.B2 with
                    | [] => (s1, false)
                    | _ :: rest => ({ s1 with B2 := rest }, true)
                  else (s1, true)
                else (s1, true)
              else (s1, true)) with
            | mk s4 b =>
              have hspec := fresh_step2_spec s1 k hc2 hc3 hc4 (s4, b) hstep2
              cases b with
              | false =>
                dsimp only
                exact hspec.1 rfl
              | true =>
                dsimp only
                obtain ⟨e1, e2, e3, e4⟩ := hspec.2 rfl
                dsimp only at e1 e2 e3 e4
                have hset := odSet_length_le k ((now : ℚ), some v) s4.T1
                exact sizeInv_of_bounds _ (by dsimp only; omega) (by dsimp only; omega)
                  (by dsimp only; omega)

/-- `get` preserves the three ARC size invariants. -/
theorem getValue_sizeInv {V : Type} (s : ARCStorage V) (k : Nat)
    (h : s.sizeInv) : ((s.getValue k).2).sizeInv := by
  obtain ⟨i1, i2, i3⟩ := h
  have htot : s.total =
      s.T1.length + s.T2.length + s.B1.length + s.B2.length := rfl
  rw [htot] at i3
  unfold ARCStorage.getValue
  cases hf1 : odFind? k s.T1 with
  | some e =>
    dsimp only
    have hmem := odFind?_odMem k s.T1 e hf1
    have e1 := odErase_length_lt k s.T1 hmem
    have e2 := odSet_length_le k e.2 s.T2
    exact sizeInv_of_bounds _ (by dsimp only; omega) (by dsimp only; omega)
      (by dsimp only; omega)
  | none =>
    cases hf2 : odFind? k s.T2 with
    | some e =>
      dsimp only
      have e2 := odMoveToEnd_length_le k s.T2
      exact sizeInv_of_bounds _ (by dsimp only; omega) (by dsimp only; omega)
        (by dsimp only; omega)
    | none =>
      dsimp only
      exact sizeInv_of_bounds s i1 i2 (by omega)

/-- Any finite operation sequence preserves the ARC size invariants. -/
theorem run_sizeInv {V : Type} (ops : List (ℚ × ArcOp V)) :
    ∀ s : ARCStorage V, s.sizeInv → (s.run ops).sizeInv := by
  induction ops with
  | nil => exact fun s h => h
  | cons op rest ih =>
    intro s h
    cases op with
    | mk now o =>
      cases o with
      | setOp k v => exact ih _ (setItem_sizeInv s now k v h)
      | getOp k => exact ih _ (getValue_sizeInv s k h)

/-- C7: starting from an empty `ARCStorage` of any capacity ≥ 1, after every
finite sequence of set and get operations the invariants
|T1|+|T2| ≤ capacity, |T1|+|B1| ≤ capacity and |T1|+|T2|+|B1|+|B2| ≤
2·capacity all hold. -/
theorem C7_arc_size_invariants (V : Type) (cap : ℕ) (hcap : 1 ≤ cap)
    (ops : List (ℚ × ArcOp V)) : ((ARCStorage.empty V cap).run ops).sizeInv :=
  run_sizeInv ops (ARCStorage.empty V cap)
    (sizeInv_of_bounds _ (by simp [ARCStorage.empty]) (by simp [ARCStorage.empty])
      (by simp [ARCStorage.empty]))

/-- Witness for C7 on a concrete capacity-1 store and operation sequence. -/
theorem C7_arc_size_invariants_witness :
    ((ARCStorage.empty Nat 1).run
        [(0, ArcOp.setOp 1 10), (1, ArcOp.getOp 1), (2, ArcOp.setOp 2 20),
          (3, ArcOp.setOp 1 30)]).sizeInv :=
  C7_arc_size_invariants Nat 1 (by decide)
    [(0, ArcOp.setOp 1 10), (1, ArcOp.getOp 1), (2, ArcOp.setOp 2 20),
      (3, ArcOp.setOp 1 30)]

/-- Witness for C6: a list is rejected before any emission; an int passes. -/
theorem C6_type_validation_witness :
    (server_set (fun _ => 0) 1 0 (ForgetfulStorage.empty PyVal)
        { neighbors := [], spiderNodes := [], storeReply := fun _ => (false, none),
          valueResult := none, spiderRpcs := [] } "k" (PyVal.pList 3) =
      { raised := true, crashed := false, result := none,
        storage := ForgetfulStorage.empty PyVal, rpcs := [] }) ∧
      check_dht_value_type (PyVal.pInt 5) = true :=
  ⟨(C6_type_validation (fun _ => 0) 1 0 (ForgetfulStorage.empty PyVal) _ "k"
      (PyVal.pList 3)).1 (by decide),
    (C6_type_validation (fun _ => 0) 1 0 (ForgetfulStorage.empty PyVal)
        { neighbors := [], spiderNodes := [], storeReply := fun _ => (false, none),
          valueResult := none, spiderRpcs := [] } "k" (PyVal.pInt 5)).2 (by decide)⟩

